import Mathlib

/-!
Verification of the SMBO (sequential model-based optimization) design
against the source notebook `03-Bayesian-Optimization-GBM-Manual.ipynb`.

The notebook tunes a GradientBoostingClassifier with skopt's `gp_minimize`.
The notebook itself contains: the hyperparameter space `param_grid`, the
classifier `gbm = GradientBoostingClassifier(random_state=0)`, and the
`objective` function (negated mean 3-fold cross-validation accuracy).
The SMBO core (search-space sampling and encoding, the Gaussian-process
surrogate, the Expected-Improvement acquisition, and the optimization
loop) lives in the skopt library and is modelled here from the design
spec, as indicated by the doc comments below.
-/

/-! ## Search space data model (spec §3, §4.1)

Modelled from the spec: the Dimension / Search Space / Point data model of
§3 and the encode/decode and `sample_random` operations of §4.1; the
implementation (skopt.space) is not part of the repository sources. -/

/-- A concrete coordinate value of a Point: integer, real (modelled by ℚ)
or categorical label. -/
inductive Value where
  | int (z : ℤ)
  | real (q : ℚ)
  | cat (s : String)
deriving DecidableEq, Repr

/-- Modelled from the spec: one axis of the search space (§3), in the three
variants used by the notebook's `param_grid`: a bounded integer range, a
bounded real interval, and a finite set of labels. -/
inductive Dimension where
  | integer (low high : ℤ) (name : String)
  | real (low high : ℚ) (name : String)
  | categorical (labels : List String) (name : String)
deriving DecidableEq, Repr

/-- Whether a Value satisfies a Dimension's bounds / category membership. -/
def dimContains : Dimension → Value → Bool
  | .integer low high _, .int z => decide (low ≤ z ∧ z ≤ high)
  | .real low high _, .real q => decide (low ≤ q ∧ q ≤ high)
  | .categorical labels _, .cat s => labels.contains s
  | _, _ => false

/-- Modelled from the spec: well-formedness of one dimension (§3 invariant:
low < high for numeric dimensions, non-empty category sets). -/
def wellFormedDim : Dimension → Bool
  | .integer low high _ => decide (low < high)
  | .real low high _ => decide (low < high)
  | .categorical labels _ => decide (labels ≠ [])

def clampQ (lo hi x : ℚ) : ℚ := max lo (min hi x)

def clampZ (lo hi x : ℤ) : ℤ := max lo (min hi x)

/-- Modelled from the spec (§3, §4.1): model-facing encoding of one
coordinate — reals mapped through [0,1] normalization, integers mapped to
reals, categoricals ordinally encoded by label index. -/
def encodeDim : Dimension → Value → ℚ
  | .integer _ _ _, .int z => (z : ℚ)
  | .real low high _, .real q => (q - low) / (high - low)
  | .categorical labels _, .cat s => ((labels.indexOf s : ℕ) : ℚ)
  | _, _ => 0

/-- Modelled from the spec (§3, §4.1): decoding of one coordinate — reals
denormalized after clamping to [0,1], integers rounded and clamped to the
range, categorical indices rounded and clamped to the label list. -/
def decodeDim : Dimension → ℚ → Value
  | .integer low high _, v => .int (clampZ low high (round v))
  | .real low high _, v => .real (low + clampQ 0 1 v * (high - low))
  | .categorical labels _, v =>
      .cat (labels.getD (clampZ 0 ((labels.length : ℤ) - 1) (round v)).toNat "")

/-- Modelled from the spec: `encode(point) -> vector` over an ordered
sequence of Dimensions (§4.1). -/
def encode (space : List Dimension) (p : List Value) : List ℚ :=
  List.zipWith encodeDim space p

/-- Modelled from the spec: `decode(vector) -> point` (§4.1). -/
def decode (space : List Dimension) (v : List ℚ) : List Value :=
  List.zipWith decodeDim space v

/-- A Point is valid for a Search Space when it has one coordinate per
Dimension and each coordinate satisfies its Dimension. -/
def spaceContains (space : List Dimension) (p : List Value) : Bool :=
  (p.length == space.length) && (List.zipWith dimContains space p).all id

/-- The notebook's hyperparameter space (`param_grid`): an integer
dimension [10,120], a real dimension [0.0001, 0.999], an integer dimension
[1,5] and a two-label categorical dimension. -/
def param_grid : List Dimension :=
  [ .integer 10 120 "n_estimators",
    .real (1/10000) (999/1000) "min_samples_split",
    .integer 1 5 "max_depth",
    .categorical ["log_loss", "exponential"] "loss" ]

/-! ## The notebook's objective function (cells 11 and 13) -/

/-- The four hyperparameters tuned by the notebook. -/
structure GBMParams where
  n_estimators : ℤ
  min_samples_split : ℚ
  max_depth : ℤ
  loss : String
deriving DecidableEq, Repr

/-- The classifier state: `gbm = GradientBoostingClassifier(random_state=0)`
carries a fixed random_state and the current hyperparameters. -/
structure GBMClassifier where
  random_state : ℕ
  params : GBMParams
deriving DecidableEq, Repr

/-- `gbm.set_params(**params)`: replaces the tuned hyperparameters, keeps
the construction-time `random_state`. -/
def set_params (g : GBMClassifier) (p : GBMParams) : GBMClassifier :=
  { g with params := p }

/-- `np.mean` of a list of scores. -/
def npMean (l : List ℚ) : ℚ := l.sum / l.length

/-- The notebook's `objective` (cell 13): sets the parameters on the shared
classifier, computes the mean of the `cross_val_score` fold accuracies and
returns its negation (together with the mutated classifier state).
`cross_val_score` is the external scorer on the fixed training data with
cv=3: it is a function of the classifier state alone. -/
def objective (cross_val_score : GBMClassifier → List ℚ)
    (g : GBMClassifier) (p : GBMParams) : ℚ × GBMClassifier :=
  let g' := set_params g p
  (-(npMean (cross_val_score g')), g')

/-! ## Random sampling and the optimization loop (spec §4.1, §4.4, §7)

Modelled from the spec: `sample_random`, the Controller state machine and
its failure policy; the implementation (skopt's `gp_minimize`) is not part
of the repository sources. -/

/-- Modelled from the spec: the deterministic pseudo-random stream behind
`sample_random` — a linear congruential generator seeded by the run's
random seed (§4.4 "random seed for reproducibility"). -/
def lcg (s : ℕ) : ℕ := (1103515245 * s + 12345) % 4294967296

/-- Modulus of the pseudo-random stream. -/
def rngRange : ℕ := 4294967296

/-- Modelled from the spec (§4.1): draw one coordinate from one dimension —
discrete dimensions uniformly over the integer range, continuous
dimensions uniformly within bounds, categoricals uniformly over labels. -/
def sampleDim : Dimension → ℕ → Value
  | .integer low high _, r => .int (low + (r : ℤ) % (high - low + 1))
  | .real low high _, r =>
      .real (low + (((r % rngRange : ℕ) : ℚ) / (rngRange : ℚ)) * (high - low))
  | .categorical labels _, r => .cat (labels.getD (r % labels.length) "")

/-- Draw one point, threading the rng state through the dimensions. -/
def samplePoint : List Dimension → ℕ → List Value × ℕ
  | [], s => ([], s)
  | d :: ds, s =>
      let s' := lcg s
      let rest := samplePoint ds s'
      (sampleDim d s' :: rest.1, rest.2)

/-- Draw n points, threading the rng state through the draws. -/
def samplePoints (space : List Dimension) : ℕ → ℕ → List (List Value) × ℕ
  | 0, s => ([], s)
  | Nat.succ n, s =>
      let first := samplePoint space s
      let rest := samplePoints space n first.2
      (first.1 :: rest.1, rest.2)

/-- Modelled from the spec (§7): the fatal construction-time error. -/
inductive SMBOError where
  | InvalidSpaceError
deriving DecidableEq, Repr

/-- Modelled from the spec (§4.1): `sample_random(n, rng) -> list[Point]`,
failing with `InvalidSpaceError` if any dimension is malformed. -/
def sample_random (space : List Dimension) (n : ℕ) (seed : ℕ) :
    Except SMBOError (List (List Value)) :=
  if space.all wellFormedDim then .ok (samplePoints space n seed).1
  else .error .InvalidSpaceError

/-- An Observation of the Trace (§3): point, scalar value, evaluation
order index. -/
structure Observation where
  point : List Value
  value : ℚ
  idx : ℕ
deriving DecidableEq, Repr

/-- Modelled from the spec (§6, §4.4): the Objective Adapter — the wrapped
costly function together with the point (if any) whose first evaluation
raises an `ObjectiveEvaluationError`. C8 considers adapters that raise
exactly once, so the failure is spent once triggered. -/
structure Adapter where
  f : List Value → ℚ
  failPoint : Option (List Value)

/-- One raw adapter call: returns `none` (an evaluation error) exactly when
the designated failure has not fired yet and the point is the failing one;
the Bool tracks whether the single failure has fired. -/
def evalRaw (a : Adapter) (failed : Bool) (p : List Value) :
    Option ℚ × Bool :=
  if failed = false ∧ a.failPoint = some p then (none, true)
  else (some (a.f p), failed)

/-- Modelled from the spec (§4.4 failure policy): evaluate a point; on an
evaluation error, record the failure and retry the same point once. Returns
(value, number of recorded failures, updated failure flag). -/
def evalWithRetry (a : Adapter) (failed : Bool) (p : List Value) :
    ℚ × ℕ × Bool :=
  match evalRaw a failed p with
  | (some v, f1) => (v, 0, f1)
  | (none, f1) =>
      match evalRaw a f1 p with
      | (some v, f2) => (v, 1, f2)
      | (none, f2) => (a.f p, 1, f2)

/-- Controller state: the Trace, the adapter failure flag, the number of
recorded (non-Observation) failures and the number of Refining-state
iterations performed. -/
structure LoopState where
  trace : List Observation
  failed : Bool
  failures : ℕ
  refineSteps : ℕ
deriving Repr

/-- Append an Observation; its evaluation order index is its position. -/
def appendObs (tr : List Observation) (p : List Value) (v : ℚ) :
    List Observation :=
  tr ++ [⟨p, v, tr.length⟩]

/-- Evaluate one point (with the §4.4 failure policy) and append the
resulting Observation to the Trace. -/
def evalStep (a : Adapter) (st : LoopState) (p : List Value) : LoopState :=
  let r := evalWithRetry a st.failed p
  { st with trace := appendObs st.trace p r.1,
            failed := r.2.2,
            failures := st.failures + r.2.1 }

/-- Initializing state: evaluate the initial random batch in order. -/
def evalBatch (a : Adapter) : List (List Value) → LoopState → LoopState
  | [], st => st
  | p :: ps, st => evalBatch a ps (evalStep a st p)

/-- Refining state: each iteration asks the acquisition optimizer
(`propose`, abstract here) for the next point, evaluates it and appends the
Observation; the fuel is the remaining budget `n_calls - n_initial_points`. -/
def refineLoop (a : Adapter) (propose : List Observation → List Value) :
    ℕ → LoopState → LoopState
  | 0, st => st
  | Nat.succ k, st =>
      let st1 := evalStep a st (propose st.trace)
      refineLoop a propose k { st1 with refineSteps := st1.refineSteps + 1 }

/-- Controller configuration (§4.4): total budget `n_calls`, initial batch
size `n_initial_points`, random seed. -/
structure RunConfig where
  n_calls : ℕ
  n_initial_points : ℕ
  seed : ℕ

/-- The Controller's starting state: empty Trace, no failure yet. -/
def initState : LoopState := ⟨[], false, 0, 0⟩

/-- Modelled from the spec (§4.4): the optimization loop behind the
notebook's `gp_minimize` call — Initializing (random batch) then Refining
(surrogate-guided steps) until the Trace reaches `n_calls`; the
surrogate-fit/acquisition-maximize step is abstracted as `propose`. -/
def gp_minimize (space : List Dimension) (cfg : RunConfig) (a : Adapter)
    (propose : List Observation → List Value) :
    Except SMBOError LoopState :=
  match sample_random space cfg.n_initial_points cfg.seed with
  | .error e => .error e
  | .ok pts =>
      .ok (refineLoop a propose (cfg.n_calls - cfg.n_initial_points)
        (evalBatch a pts initState))

/-! ## Best-so-far over the Trace (spec §3, §8; notebook's
`plot_convergence` cell)

Modelled from the spec: the Best-so-far accounting (the Observation with
minimum value, recomputed after every append, ties broken by earliest
evaluation order index); the implementation (skopt's convergence
accounting) is not part of the repository sources. -/

/-- Modelled from the spec (§3 Best-so-far): the (evaluation order index,
value) of the minimum-value Observation of a list of observed values, ties
broken by the earliest index; `none` on an empty Trace. -/
def bestPair : List ℚ → Option (ℕ × ℚ)
  | [] => none
  | v :: vs =>
      match bestPair vs with
      | none => some (0, v)
      | some (j, b) => if v ≤ b then some (0, v) else some (j + 1, b)

/-- Best-so-far after the first i observations of a run. -/
def bestAfter (vals : List ℚ) (i : ℕ) : Option ℚ :=
  (bestPair (vals.take i)).map Prod.snd

/-! ## Expected Improvement acquisition (spec §4.3)

Modelled from the spec: the Expected Improvement criterion; the
implementation (skopt's acquisition module, selected by `acq_func='EI'` in
the notebook's `gp_minimize` call) is not part of the repository
sources. -/

/-- The standard normal density φ. -/
noncomputable def normPDF (t : ℝ) : ℝ :=
  (Real.sqrt (2 * Real.pi))⁻¹ * Real.exp (-t ^ 2 / 2)

/-- The standard normal CDF Φ. -/
noncomputable def normCDF (z : ℝ) : ℝ := ∫ t in Set.Iic z, normPDF t

/-- Modelled from the spec (§4.3): EI = (best − mean)·Φ(z) + std·φ(z) with
z = (best − mean)/std when std > 0, and EI = 0 when std = 0 (no
uncertainty ⇒ no expected improvement). -/
noncomputable def EI (best mean std : ℝ) : ℝ :=
  if std = 0 then 0
  else (best - mean) * normCDF ((best - mean) / std)
    + std * normPDF ((best - mean) / std)

/-! ## Theorems -/

/-- Helper: per-dimension decode/encode round trip. -/
theorem decodeDim_encodeDim (d : Dimension) (v : Value)
    (hw : wellFormedDim d = true) (hc : dimContains d v = true) :
    decodeDim d (encodeDim d v) = v := by
  cases d with
  | integer low high name =>
      cases v with
      | int z =>
          have hb : low ≤ z ∧ z ≤ high := by
            simpa [dimContains] using hc
          simp [encodeDim, decodeDim, clampZ, min_eq_right hb.2,
            max_eq_right hb.1]
      | real q => simp [dimContains] at hc
      | cat s => simp [dimContains] at hc
  | real low high name =>
      cases v with
      | int z => simp [dimContains] at hc
      | real q =>
          have hlt : low < high := by simpa [wellFormedDim] using hw
          have hb : low ≤ q ∧ q ≤ high := by
            simpa [dimContains] using hc
          have hpos : (0 : ℚ) < high - low := by linarith
          have h0 : (0 : ℚ) ≤ (q - low) / (high - low) :=
            div_nonneg (by linarith) hpos.le
          have h1 : (q - low) / (high - low) ≤ 1 :=
            (div_le_one hpos).2 (by linarith)
          have hclamp : clampQ 0 1 ((q - low) / (high - low)) =
              (q - low) / (high - low) := by
            simp [clampQ, min_eq_right h1, max_eq_right h0]
          have hcancel : (q - low) / (high - low) * (high - low) = q - low :=
            div_mul_cancel₀ _ hpos.ne'
          simp [encodeDim, decodeDim, hclamp, hcancel]
      | cat s => simp [dimContains] at hc
  | categorical labels name =>
      cases v with
      | int z => simp [dimContains] at hc
      | real q => simp [dimContains] at hc
      | cat s =>
          have hs : s ∈ labels := by
            simpa [dimContains, List.contains, List.elem_iff] using hc
          have hidx : labels.indexOf s < labels.length :=
            List.indexOf_lt_length.2 hs
          have h1 : ((labels.indexOf s : ℕ) : ℤ) ≤ (labels.length : ℤ) - 1 := by
            omega
          have h0 : (0 : ℤ) ≤ ((labels.indexOf s : ℕ) : ℤ) := Int.natCast_nonneg _
          have hclamp : clampZ 0 ((labels.length : ℤ) - 1)
              ((labels.indexOf s : ℕ) : ℤ) = ((labels.indexOf s : ℕ) : ℤ) := by
            simp [clampZ, min_eq_right h1, max_eq_right h0]
          have hget : labels.getD (labels.indexOf s) "" = s := by
            rw [List.getD_eq_getElem?_getD, List.getElem?_eq_getElem hidx,
              Option.getD_some]
            exact List.getElem_indexOf hidx
          simp only [encodeDim, decodeDim, round_natCast, hclamp,
            Int.toNat_natCast]
          exact congrArg Value.cat hget

/-- Helper: decode/encode round trip over a whole space. -/
theorem decode_encode_of_contains (space : List Dimension) (p : List Value)
    (hw : space.all wellFormedDim = true)
    (hc : spaceContains space p = true) :
    decode space (encode space p) = p := by
  induction space generalizing p with
  | nil =>
      have : p.length = 0 := by
        simpa [spaceContains] using hc
      simp [decode, encode, List.eq_nil_of_length_eq_zero this]
  | cons d ds ih =>
      cases p with
      | nil => simp [spaceContains] at hc
      | cons v vs =>
          have hw1 : wellFormedDim d = true ∧ ds.all wellFormedDim = true := by
            simpa [List.all_cons] using hw
          have hc1 : dimContains d v = true := by
            have h := hc
            simp [spaceContains, List.all_cons] at h
            exact h.2.1
          have hc2 : spaceContains ds vs = true := by
            have h := hc
            simp [spaceContains, List.all_cons] at h
            simp [spaceContains]
            exact ⟨h.1, h.2.2⟩
          have htail : decode ds (encode ds vs) = vs := ih vs hw1.2 hc2
          simp only [encode, decode, List.zipWith_cons_cons] at htail ⊢
          rw [decodeDim_encodeDim d v hw1.1 hc1, htail]

/-- C2: encoding then decoding is the identity on valid points of the
notebook's `param_grid` search space (an integer in [10,120], a real in
[0.0001,0.999], an integer in [1,5], and one of two category labels). -/
theorem decode_encode_param_grid (p : List Value)
    (hc : spaceContains param_grid p = true) :
    decode param_grid (encode param_grid p) = p :=
  decode_encode_of_contains param_grid p
    (by norm_num [param_grid, wellFormedDim, List.cons_ne_nil]) hc

/-- Witness for C2 at a concrete valid point. -/
theorem decode_encode_param_grid_witness :
    spaceContains param_grid
        [Value.int 50, Value.real (1/2), Value.int 3, Value.cat "log_loss"]
      = true ∧
    decode param_grid (encode param_grid
        [Value.int 50, Value.real (1/2), Value.int 3, Value.cat "log_loss"])
      = [Value.int 50, Value.real (1/2), Value.int 3, Value.cat "log_loss"] :=
  ⟨by norm_num [spaceContains, param_grid, dimContains],
    decode_encode_param_grid _
      (by norm_num [spaceContains, param_grid, dimContains])⟩

/-- C1: the notebook's `objective` returns the negation of the mean
cross-validation accuracy of the classifier configured with the given
parameters, so minimizing the returned value maximizes the mean accuracy. -/
theorem objective_negates_mean_accuracy
    (cross_val_score : GBMClassifier → List ℚ) (g : GBMClassifier)
    (p : GBMParams) :
    (objective cross_val_score g p).1
        = -(npMean (cross_val_score (set_params g p))) ∧
    ∀ q : GBMParams,
      ((objective cross_val_score g p).1 ≤ (objective cross_val_score g q).1 ↔
        npMean (cross_val_score (set_params g q))
          ≤ npMean (cross_val_score (set_params g p))) := by
  refine ⟨rfl, fun q => ?_⟩
  simp [objective]

/-- C10: the notebook's `objective` is a deterministic function of its
hyperparameter arguments: its value does not depend on the prior state of
the shared classifier, only on the fixed `random_state` and the parameters
passed in (the cross-validation scorer, with cv=3 on fixed unshuffled
training data, is a fixed function of the classifier state). -/
theorem objective_deterministic
    (cross_val_score : GBMClassifier → List ℚ) (g1 g2 : GBMClassifier)
    (p : GBMParams) (h : g1.random_state = g2.random_state) :
    (objective cross_val_score g1 p).1 = (objective cross_val_score g2 p).1 := by
  have hst : set_params g1 p = set_params g2 p := by
    simp [set_params, h]
  simp [objective, hst]

/-- Witness for C10 at concrete classifier states and parameters. -/
theorem objective_deterministic_witness :
    (GBMClassifier.mk 0 ⟨10, 1/2, 1, "log_loss"⟩).random_state
        = (GBMClassifier.mk 0 ⟨99, 9/10, 5, "exponential"⟩).random_state ∧
    (objective (fun _ => [9/10, 9/10, 9/10])
        (GBMClassifier.mk 0 ⟨10, 1/2, 1, "log_loss"⟩)
        ⟨50, 1/4, 3, "log_loss"⟩).1
      = (objective (fun _ => [9/10, 9/10, 9/10])
        (GBMClassifier.mk 0 ⟨99, 9/10, 5, "exponential"⟩)
        ⟨50, 1/4, 3, "log_loss"⟩).1 :=
  ⟨rfl, objective_deterministic (fun _ => [9/10, 9/10, 9/10]) _ _
    ⟨50, 1/4, 3, "log_loss"⟩ rfl⟩

/-- Helper: one sampled coordinate satisfies its (well-formed) dimension. -/
theorem sampleDim_contains (d : Dimension) (r : ℕ)
    (hw : wellFormedDim d = true) :
    dimContains d (sampleDim d r) = true := by
  cases d with
  | integer low high name =>
      have hlt : low < high := by simpa [wellFormedDim] using hw
      have h1 : 0 ≤ (r : ℤ) % (high - low + 1) :=
        Int.emod_nonneg _ (by omega)
      have h2 : (r : ℤ) % (high - low + 1) < high - low + 1 :=
        Int.emod_lt_of_pos _ (by omega)
      simp only [sampleDim, dimContains, decide_eq_true_eq]
      omega
  | real low high name =>
      have hlt : low < high := by simpa [wellFormedDim] using hw
      have hR : (0 : ℚ) < (rngRange : ℚ) := by norm_num [rngRange]
      have hr0 : (0 : ℚ) ≤ ((r % rngRange : ℕ) : ℚ) := Nat.cast_nonneg _
      have hrlt : ((r % rngRange : ℕ) : ℚ) < (rngRange : ℚ) := by
        exact_mod_cast Nat.mod_lt r (by norm_num [rngRange])
      have h01 : 0 ≤ ((r % rngRange : ℕ) : ℚ) / (rngRange : ℚ) :=
        div_nonneg hr0 hR.le
      have h11 : ((r % rngRange : ℕ) : ℚ) / (rngRange : ℚ) ≤ 1 :=
        (div_le_one hR).2 hrlt.le
      simp only [sampleDim, dimContains, decide_eq_true_eq]
      constructor
      · nlinarith
      · nlinarith
  | categorical labels name =>
      have hne : labels ≠ [] := by simpa [wellFormedDim] using hw
      have hlen : 0 < labels.length := List.length_pos.2 hne
      have hidx : r % labels.length < labels.length := Nat.mod_lt r hlen
      have hmem : labels.getD (r % labels.length) "" ∈ labels := by
        rw [List.getD_eq_getElem?_getD, List.getElem?_eq_getElem hidx,
          Option.getD_some]
        exact List.getElem_mem hidx
      simpa [sampleDim, dimContains, List.contains, List.elem_iff] using hmem

/-- Helper: a sampled point has one coordinate per dimension and each
coordinate is in bounds. -/
theorem samplePoint_contains (space : List Dimension) (s : ℕ)
    (hw : space.all wellFormedDim = true) :
    spaceContains space (samplePoint space s).1 = true := by
  induction space generalizing s with
  | nil => simp [samplePoint, spaceContains]
  | cons d ds ih =>
      have hw1 : wellFormedDim d = true ∧ ds.all wellFormedDim = true := by
        simpa [List.all_cons] using hw
      have h1 := sampleDim_contains d (lcg s) hw1.1
      have h2 := ih (lcg s) hw1.2
      simp only [spaceContains, Bool.and_eq_true, beq_iff_eq,
        List.all_eq_true] at h2
      simp only [samplePoint, spaceContains, List.length_cons,
        List.zipWith_cons_cons, List.all_cons, Bool.and_eq_true, beq_iff_eq,
        List.all_eq_true, id]
      exact ⟨by omega, h1, h2.2⟩

/-- Helper: the number of sampled points is the requested count. -/
theorem samplePoints_length (space : List Dimension) (n s : ℕ) :
    (samplePoints space n s).1.length = n := by
  induction n generalizing s with
  | zero => simp [samplePoints]
  | succ k ih => simp [samplePoints, ih]

/-- Helper: every sampled point is valid for the (well-formed) space. -/
theorem samplePoints_all (space : List Dimension) (n s : ℕ)
    (hw : space.all wellFormedDim = true) :
    ∀ p ∈ (samplePoints space n s).1, spaceContains space p = true := by
  induction n generalizing s with
  | zero => simp [samplePoints]
  | succ k ih =>
      intro p hp
      simp only [samplePoints, List.mem_cons] at hp
      rcases hp with h | h
      · rw [h]; exact samplePoint_contains space s hw
      · exact ih _ p h

/-- C6: random sampling of a well-formed search space is deterministic in
the seed, returns exactly n points, and every coordinate of every returned
point satisfies its dimension's bounds or category membership. -/
theorem sample_random_spec (space : List Dimension) (n seed : ℕ)
    (hw : space.all wellFormedDim = true) :
    sample_random space n seed = sample_random space n seed ∧
    ∃ pts, sample_random space n seed = .ok pts ∧ pts.length = n ∧
      ∀ p ∈ pts, spaceContains space p = true := by
  refine ⟨rfl, (samplePoints space n seed).1, ?_, ?_, ?_⟩
  · simp [sample_random, hw]
  · exact samplePoints_length space n seed
  · exact samplePoints_all space n seed hw

/-- Witness for C6 on the notebook's `param_grid` with n = 2, seed = 0. -/
theorem sample_random_spec_witness :
    param_grid.all wellFormedDim = true ∧
    (sample_random param_grid 2 0 = sample_random param_grid 2 0 ∧
     ∃ pts, sample_random param_grid 2 0 = .ok pts ∧ pts.length = 2 ∧
       ∀ p ∈ pts, spaceContains param_grid p = true) :=
  ⟨by norm_num [param_grid, wellFormedDim, List.cons_ne_nil],
   sample_random_spec param_grid 2 0
     (by norm_num [param_grid, wellFormedDim, List.cons_ne_nil])⟩

/-- Helper: the Initializing batch performs no Refining iteration. -/
theorem evalBatch_refineSteps (a : Adapter) (ps : List (List Value))
    (st : LoopState) :
    (evalBatch a ps st).refineSteps = st.refineSteps := by
  induction ps generalizing st with
  | nil => rfl
  | cons p ps ih => simp [evalBatch, ih, evalStep]

/-- C7: when the total budget equals the initial batch size, the run
performs zero Refining-state iterations and its Trace is exactly the
evaluations of the initial random batch. -/
theorem run_budget_equals_initial (space : List Dimension) (cfg : RunConfig)
    (a : Adapter) (propose : List Observation → List Value)
    (h1 : 1 ≤ cfg.n_initial_points) (heq : cfg.n_calls = cfg.n_initial_points)
    (hw : space.all wellFormedDim = true) :
    gp_minimize space cfg a propose =
      .ok (evalBatch a (samplePoints space cfg.n_initial_points cfg.seed).1
        initState) ∧
    ∀ st, gp_minimize space cfg a propose = .ok st → st.refineSteps = 0 := by
  have hfuel : cfg.n_calls - cfg.n_initial_points = 0 := by omega
  constructor
  · simp [gp_minimize, sample_random, hw, hfuel, refineLoop]
  · intro st hst
    simp [gp_minimize, sample_random, hw, hfuel, refineLoop] at hst
    rw [← hst, evalBatch_refineSteps]
    rfl

/-- Witness for C7 at a concrete configuration with budget 3 = batch 3. -/
theorem run_budget_equals_initial_witness :
    1 ≤ (RunConfig.mk 3 3 0).n_initial_points ∧
    (RunConfig.mk 3 3 0).n_calls = (RunConfig.mk 3 3 0).n_initial_points ∧
    (gp_minimize param_grid (RunConfig.mk 3 3 0) ⟨fun _ => 0, none⟩
        (fun _ => []) =
      .ok (evalBatch ⟨fun _ => 0, none⟩
        (samplePoints param_grid (RunConfig.mk 3 3 0).n_initial_points
          (RunConfig.mk 3 3 0).seed).1 initState) ∧
    ∀ st, gp_minimize param_grid (RunConfig.mk 3 3 0) ⟨fun _ => 0, none⟩
        (fun _ => []) = .ok st → st.refineSteps = 0) :=
  ⟨by norm_num, rfl,
   run_budget_equals_initial param_grid (RunConfig.mk 3 3 0)
     ⟨fun _ => 0, none⟩ (fun _ => []) (by norm_num) rfl
     (by norm_num [param_grid, wellFormedDim, List.cons_ne_nil])⟩

/-- Helper: a recovered evaluation either succeeds directly (no failure
recorded, flag unchanged) or records exactly one failure, flips the flag
and succeeds on the retry. -/
theorem evalWithRetry_fail_spec (a : Adapter) (failed : Bool)
    (p : List Value) :
    ((evalWithRetry a failed p).2.1 = 0 ∧
      (evalWithRetry a failed p).2.2 = failed) ∨
    (failed = false ∧ (evalWithRetry a failed p).2.1 = 1 ∧
      (evalWithRetry a failed p).2.2 = true) := by
  by_cases hf : failed = false ∧ a.failPoint = some p
  · right
    refine ⟨hf.1, ?_⟩
    simp [evalWithRetry, evalRaw, hf]
  · left
    simp [evalWithRetry, evalRaw, hf]

/-- Helper: each evaluation appends exactly one Observation. -/
theorem evalStep_trace_length (a : Adapter) (st : LoopState)
    (p : List Value) :
    (evalStep a st p).trace.length = st.trace.length + 1 := by
  simp [evalStep, appendObs]

/-- Helper: the initial batch appends one Observation per point. -/
theorem evalBatch_trace_length (a : Adapter) (ps : List (List Value))
    (st : LoopState) :
    (evalBatch a ps st).trace.length = st.trace.length + ps.length := by
  induction ps generalizing st with
  | nil => simp [evalBatch]
  | cons p ps ih =>
      simp [evalBatch, ih, evalStep_trace_length]
      omega

/-- Helper: the Refining loop appends one Observation per iteration. -/
theorem refineLoop_trace_length (a : Adapter)
    (propose : List Observation → List Value) (k : ℕ) (st : LoopState) :
    (refineLoop a propose k st).trace.length = st.trace.length + k := by
  induction k generalizing st with
  | zero => simp [refineLoop]
  | succ m ih =>
      simp [refineLoop, ih, evalStep_trace_length]
      omega

/-- Helper: one evaluation preserves the single-failure accounting. -/
theorem evalStep_failures (a : Adapter) (st : LoopState) (p : List Value)
    (h : st.failures ≤ 1 ∧ (st.failed = false → st.failures = 0)) :
    (evalStep a st p).failures ≤ 1 ∧
      ((evalStep a st p).failed = false → (evalStep a st p).failures = 0) := by
  have hfl : (evalStep a st p).failures
      = st.failures + (evalWithRetry a st.failed p).2.1 := rfl
  have hfd : (evalStep a st p).failed = (evalWithRetry a st.failed p).2.2 := rfl
  rcases evalWithRetry_fail_spec a st.failed p with h0 | h1
  · rw [hfl, hfd, h0.1, h0.2]
    exact ⟨by omega, fun hf => by simpa using h.2 hf⟩
  · rw [hfl, hfd, h1.2.1, h1.2.2]
    have := h.2 h1.1
    exact ⟨by omega, fun hf => by simp at hf⟩

/-- Helper: the initial batch preserves the single-failure accounting. -/
theorem evalBatch_failures (a : Adapter) (ps : List (List Value))
    (st : LoopState)
    (h : st.failures ≤ 1 ∧ (st.failed = false → st.failures = 0)) :
    (evalBatch a ps st).failures ≤ 1 ∧
      ((evalBatch a ps st).failed = false →
        (evalBatch a ps st).failures = 0) := by
  induction ps generalizing st with
  | nil => exact h
  | cons p ps ih => exact ih _ (evalStep_failures a st p h)

/-- Helper: the Refining loop preserves the single-failure accounting. -/
theorem refineLoop_failures (a : Adapter)
    (propose : List Observation → List Value) (k : ℕ) (st : LoopState)
    (h : st.failures ≤ 1 ∧ (st.failed = false → st.failures = 0)) :
    (refineLoop a propose k st).failures ≤ 1 ∧
      ((refineLoop a propose k st).failed = false →
        (refineLoop a propose k st).failures = 0) := by
  induction k generalizing st with
  | zero => exact h
  | succ m ih =>
      have h1 := evalStep_failures a st (propose st.trace) h
      exact ih _ ⟨h1.1, fun hf => h1.2 hf⟩

/-- C8: an Objective Adapter that raises exactly once for one point never
aborts the run: the Controller records the failure (at most one is ever
recorded, not an Observation), retries the point, the run continues, and
on normal completion the Trace length still reaches `n_calls`. -/
theorem run_single_failure_completes (space : List Dimension)
    (cfg : RunConfig) (a : Adapter)
    (propose : List Observation → List Value) (p0 : List Value)
    (hw : space.all wellFormedDim = true)
    (hfail : a.failPoint = some p0)
    (hle : cfg.n_initial_points ≤ cfg.n_calls) :
    ∃ st, gp_minimize space cfg a propose = .ok st ∧
      st.trace.length = cfg.n_calls ∧ st.failures ≤ 1 := by
  refine ⟨refineLoop a propose (cfg.n_calls - cfg.n_initial_points)
    (evalBatch a (samplePoints space cfg.n_initial_points cfg.seed).1
      initState), ?_, ?_, ?_⟩
  · simp [gp_minimize, sample_random, hw]
  · rw [refineLoop_trace_length, evalBatch_trace_length,
      samplePoints_length]
    simp only [initState, List.length_nil]
    omega
  · have h0 : initState.failures ≤ 1 ∧
        (initState.failed = false → initState.failures = 0) := by
      simp [initState]
    exact (refineLoop_failures a propose _ _
      (evalBatch_failures a _ _ h0)).1

/-- Witness for C8: an adapter that raises once for a concrete point, on a
run with budget 4 and initial batch 2. -/
theorem run_single_failure_completes_witness :
    param_grid.all wellFormedDim = true ∧
    (Adapter.mk (fun _ => 0) (some [Value.int 10])).failPoint
      = some [Value.int 10] ∧
    (RunConfig.mk 4 2 0).n_initial_points ≤ (RunConfig.mk 4 2 0).n_calls ∧
    ∃ st, gp_minimize param_grid (RunConfig.mk 4 2 0)
        (Adapter.mk (fun _ => 0) (some [Value.int 10])) (fun _ => [])
        = .ok st ∧
      st.trace.length = (RunConfig.mk 4 2 0).n_calls ∧ st.failures ≤ 1 :=
  ⟨by norm_num [param_grid, wellFormedDim, List.cons_ne_nil], rfl,
   by norm_num,
   run_single_failure_completes param_grid (RunConfig.mk 4 2 0)
     (Adapter.mk (fun _ => 0) (some [Value.int 10])) (fun _ => [])
     [Value.int 10]
     (by norm_num [param_grid, wellFormedDim, List.cons_ne_nil]) rfl
     (by norm_num)⟩

/-- C9: a malformed search space (some dimension with low ≥ high or an
empty category set) makes `sample_random` fail with `InvalidSpaceError`,
and a run over it surfaces the error immediately, whatever the Objective
Adapter — no objective evaluation is performed. -/
theorem invalid_space_aborts (space : List Dimension) (n seed : ℕ)
    (cfg : RunConfig) (propose : List Observation → List Value)
    (hbad : space.all wellFormedDim = false) :
    sample_random space n seed = .error .InvalidSpaceError ∧
    ∀ a : Adapter, gp_minimize space cfg a propose
      = .error .InvalidSpaceError := by
  constructor
  · simp [sample_random, hbad]
  · intro a
    simp [gp_minimize, sample_random, hbad]

/-- Witness for C9 on a space whose integer dimension has low = high. -/
theorem invalid_space_aborts_witness :
    [Dimension.integer 5 5 "bad"].all wellFormedDim = false ∧
    (sample_random [Dimension.integer 5 5 "bad"] 3 0
        = .error .InvalidSpaceError ∧
     ∀ a : Adapter, gp_minimize [Dimension.integer 5 5 "bad"]
        (RunConfig.mk 2 1 0) a (fun _ => [])
        = .error .InvalidSpaceError) :=
  ⟨by simp [wellFormedDim],
   invalid_space_aborts [Dimension.integer 5 5 "bad"] 3 0
     (RunConfig.mk 2 1 0) (fun _ => []) (by simp [wellFormedDim])⟩

/-- Helper: `bestPair` is `none` only on the empty Trace. -/
theorem bestPair_eq_none (l : List ℚ) (h : bestPair l = none) : l = [] := by
  cases l with
  | nil => rfl
  | cons v vs =>
      exfalso
      cases hvs : bestPair vs with
      | none => simp [bestPair, hvs] at h
      | some q =>
          by_cases hv : v ≤ q.2 <;> simp [bestPair, hvs, hv] at h

/-- Helper: `bestPair` returns a value of the list. -/
theorem bestPair_mem (l : List ℚ) (p : ℕ × ℚ) (h : bestPair l = some p) :
    p.2 ∈ l := by
  induction l generalizing p with
  | nil => simp [bestPair] at h
  | cons v vs ih =>
      cases hvs : bestPair vs with
      | none =>
          simp [bestPair, hvs] at h
          cases h
          simp
      | some q =>
          obtain ⟨j, c⟩ := q
          by_cases hv : v ≤ c
          · simp [bestPair, hvs, hv] at h
            cases h
            simp
          · simp [bestPair, hvs, hv] at h
            cases h
            have := ih (j, c) hvs
            simp at this ⊢
            right
            exact this

/-- Helper: `bestPair` returns a lower bound of the list. -/
theorem bestPair_le (l : List ℚ) (p : ℕ × ℚ) (h : bestPair l = some p) :
    ∀ x ∈ l, p.2 ≤ x := by
  induction l generalizing p with
  | nil => simp [bestPair] at h
  | cons v vs ih =>
      cases hvs : bestPair vs with
      | none =>
          have hnil : vs = [] := bestPair_eq_none vs hvs
          subst hnil
          simp [bestPair] at h
          cases h
          simp
      | some q =>
          obtain ⟨j, c⟩ := q
          have hvs' := ih (j, c) hvs
          by_cases hv : v ≤ c
          · simp [bestPair, hvs, hv] at h
            cases h
            intro x hx
            rcases List.mem_cons.1 hx with hx | hx
            · simp [hx]
            · exact le_trans hv (hvs' x hx)
          · simp [bestPair, hvs, hv] at h
            cases h
            intro x hx
            rcases List.mem_cons.1 hx with hx | hx
            · simpa [hx] using le_of_not_le hv
            · simpa using hvs' x hx

/-- Helper: `bestPair` returns the index of its value, and every strictly
earlier observation is strictly worse (ties broken by earliest index). -/
theorem bestPair_idx (l : List ℚ) (p : ℕ × ℚ) (h : bestPair l = some p) :
    p.1 < l.length ∧ l.getD p.1 0 = p.2 ∧
      ∀ m < p.1, p.2 < l.getD m 0 := by
  induction l generalizing p with
  | nil => simp [bestPair] at h
  | cons v vs ih =>
      cases hvs : bestPair vs with
      | none =>
          simp [bestPair, hvs] at h
          cases h
          refine ⟨by simp, by simp, ?_⟩
          intro m hm
          simp at hm
      | some q =>
          obtain ⟨j, c⟩ := q
          have hq := ih (j, c) hvs
          by_cases hv : v ≤ c
          · simp [bestPair, hvs, hv] at h
            cases h
            refine ⟨by simp, by simp, ?_⟩
            intro m hm
            simp at hm
          · simp [bestPair, hvs, hv] at h
            cases h
            refine ⟨?_, ?_, ?_⟩
            · simp only [List.length_cons]
              omega
            · simpa [List.getD_cons_succ] using hq.2.1
            · intro m hm
              cases m with
              | zero => simpa using lt_of_not_le hv
              | succ m' =>
                  rw [List.getD_cons_succ]
                  exact hq.2.2 m' (by omega)

/-- C5: over the Trace of any run, the best-so-far value is monotonically
non-increasing in the iteration index (the minimum over the first i
observed values is ≥ the minimum over the first j when i ≤ j), and the
best-so-far after each append is the observation with minimum value, ties
broken by the earliest evaluation order index. -/
theorem best_so_far_monotone (vals : List ℚ) (i j : ℕ) (hij : i ≤ j)
    (a b : ℚ) (ha : bestAfter vals i = some a)
    (hb : bestAfter vals j = some b) :
    b ≤ a ∧
    ∀ k p, bestPair (vals.take k) = some p →
      p.2 ∈ vals.take k ∧ (∀ x ∈ vals.take k, p.2 ≤ x) ∧
      (vals.take k).getD p.1 0 = p.2 ∧
      ∀ m < p.1, p.2 < (vals.take k).getD m 0 := by
  constructor
  · obtain ⟨pa, hpa, ha2⟩ := Option.map_eq_some'.1 ha
    obtain ⟨pb, hpb, hb2⟩ := Option.map_eq_some'.1 hb
    have hmem : pa.2 ∈ vals.take i := bestPair_mem _ _ hpa
    have hsub : vals.take i ⊆ vals.take j := by
      intro x hx
      have heq : vals.take i = (vals.take j).take i := by
        rw [List.take_take, min_eq_left hij]
      rw [heq] at hx
      exact List.take_subset _ _ hx
    have hle := bestPair_le _ _ hpb pa.2 (hsub hmem)
    rw [ha2] at hle
    rw [hb2] at hle
    exact hle
  · intro k p hp
    exact ⟨bestPair_mem _ _ hp, bestPair_le _ _ hp,
      (bestPair_idx _ _ hp).2.1, (bestPair_idx _ _ hp).2.2⟩

/-- Witness for C5 on the trace values [3, 1, 2] with i = 1 ≤ j = 3. -/
theorem best_so_far_monotone_witness :
    (1 : ℕ) ≤ 3 ∧ bestAfter [3, 1, 2] 1 = some 3 ∧
    bestAfter [3, 1, 2] 3 = some 1 ∧
    ((1 : ℚ) ≤ 3 ∧
     ∀ k p, bestPair (([3, 1, 2] : List ℚ).take k) = some p →
       p.2 ∈ ([3, 1, 2] : List ℚ).take k ∧
       (∀ x ∈ ([3, 1, 2] : List ℚ).take k, p.2 ≤ x) ∧
       (([3, 1, 2] : List ℚ).take k).getD p.1 0 = p.2 ∧
       ∀ m < p.1, p.2 < (([3, 1, 2] : List ℚ).take k).getD m 0) :=
  ⟨by norm_num, by decide, by decide,
   best_so_far_monotone [3, 1, 2] 1 3 (by norm_num) 3 1 (by decide)
     (by decide)⟩

/-- Helper: the normal density is nonnegative. -/
theorem normPDF_nonneg (t : ℝ) : 0 ≤ normPDF t :=
  mul_nonneg (inv_nonneg.2 (Real.sqrt_nonneg _)) (Real.exp_nonneg _)

/-- Helper: the normal density is integrable. -/
theorem integrable_normPDF : MeasureTheory.Integrable normPDF := by
  have h := (integrable_exp_neg_mul_sq (by norm_num : (0:ℝ) < 1/2)).const_mul
    (Real.sqrt (2 * Real.pi))⁻¹
  have heq : normPDF = fun t : ℝ =>
      (Real.sqrt (2 * Real.pi))⁻¹ * Real.exp (-(1/2) * t ^ 2) := by
    funext t
    rw [normPDF, show -t ^ 2 / 2 = -(1/2) * t ^ 2 by ring]
  rw [heq]
  exact h

/-- Helper: t ↦ t · φ(t) is integrable. -/
theorem integrable_mul_normPDF :
    MeasureTheory.Integrable (fun t => t * normPDF t) := by
  have h := (integrable_mul_exp_neg_mul_sq (by norm_num : (0:ℝ) < 1/2)).const_mul
    (Real.sqrt (2 * Real.pi))⁻¹
  have heq : (fun t : ℝ => t * normPDF t) = fun t : ℝ =>
      (Real.sqrt (2 * Real.pi))⁻¹ * (t * Real.exp (-(1/2) * t ^ 2)) := by
    funext t
    rw [normPDF, show -t ^ 2 / 2 = -(1/2) * t ^ 2 by ring]
    ring
  rw [heq]
  exact h

/-- Helper: the normal density vanishes at -∞. -/
theorem tendsto_normPDF_atBot :
    Filter.Tendsto normPDF Filter.atBot (nhds 0) := by
  have ha : Filter.Tendsto (fun t : ℝ => t ^ 2) Filter.atBot Filter.atTop := by
    have h := (Filter.tendsto_pow_atTop (two_ne_zero)).comp
      (Filter.tendsto_neg_atBot_atTop (β := ℝ))
    have heq : ((fun x : ℝ => x ^ 2) ∘ fun t : ℝ => -t) = fun t : ℝ => t ^ 2 := by
      funext t
      simp [Function.comp, neg_sq]
    rwa [heq] at h
  have hb : Filter.Tendsto (fun t : ℝ => -t ^ 2) Filter.atBot Filter.atBot := by
    have h := (Filter.tendsto_neg_atTop_atBot (β := ℝ)).comp ha
    have heq2 : (Neg.neg ∘ fun t : ℝ => t ^ 2) = fun t : ℝ => -t ^ 2 := rfl
    rwa [heq2] at h
  have hc : Filter.Tendsto (fun t : ℝ => -t ^ 2 / 2) Filter.atBot
      Filter.atBot := hb.atBot_div_const (by norm_num)
  have hexp : Filter.Tendsto (fun t : ℝ => Real.exp (-t ^ 2 / 2))
      Filter.atBot (nhds 0) := Real.tendsto_exp_atBot.comp hc
  have hlim := hexp.const_mul (Real.sqrt (2 * Real.pi))⁻¹
  rw [mul_zero] at hlim
  exact hlim

/-- Helper: ∫_{-∞}^z t·φ(t) dt = -φ(z), via the antiderivative -φ. -/
theorem integral_mul_normPDF_Iic (z : ℝ) :
    ∫ t in Set.Iic z, t * normPDF t = -normPDF z := by
  have hderiv : ∀ x ∈ Set.Iic z,
      HasDerivAt (fun t => -normPDF t) (x * normPDF x) x := by
    intro x _
    have h1 : HasDerivAt (fun t : ℝ => -t ^ 2 / 2) (-x) x := by
      have := ((hasDerivAt_pow 2 x).div_const 2).neg
      have heq : (fun t : ℝ => -(t ^ 2 / 2)) = fun t : ℝ => -t ^ 2 / 2 := by
        funext t
        ring
      rw [heq] at this
      convert this using 1
      push_cast
      ring
    have h2 : HasDerivAt (fun t : ℝ => Real.exp (-t ^ 2 / 2))
        (Real.exp (-x ^ 2 / 2) * (-x)) x := h1.exp
    have h3 := (h2.const_mul (Real.sqrt (2 * Real.pi))⁻¹).neg
    have heq : (fun t : ℝ =>
        -((Real.sqrt (2 * Real.pi))⁻¹ * Real.exp (-t ^ 2 / 2)))
        = fun t => -normPDF t := by
      funext t
      rw [normPDF]
    rw [heq] at h3
    convert h3 using 1
    rw [normPDF]
    ring
  have hint : MeasureTheory.IntegrableOn (fun t => t * normPDF t)
      (Set.Iic z) := integrable_mul_normPDF.integrableOn
  have htend : Filter.Tendsto (fun t => -normPDF t) Filter.atBot (nhds 0) := by
    simpa using tendsto_normPDF_atBot.neg
  have h := MeasureTheory.integral_Iic_of_hasDerivAt_of_tendsto'
    hderiv hint htend
  simpa using h

/-- Helper: the normal CDF is nonnegative. -/
theorem normCDF_nonneg (z : ℝ) : 0 ≤ normCDF z :=
  MeasureTheory.setIntegral_nonneg measurableSet_Iic
    (fun t _ => normPDF_nonneg t)

/-- Helper (Mills-ratio style bound): z·Φ(z) + φ(z) ≥ 0 for every z,
because it equals ∫_{-∞}^z (z − t)·φ(t) dt, an integral of a nonnegative
function. -/
theorem mills_nonneg (z : ℝ) : 0 ≤ z * normCDF z + normPDF z := by
  have h1 : MeasureTheory.IntegrableOn (fun t => z * normPDF t)
      (Set.Iic z) := (integrable_normPDF.const_mul z).integrableOn
  have h2 : MeasureTheory.IntegrableOn (fun t => t * normPDF t)
      (Set.Iic z) := integrable_mul_normPDF.integrableOn
  have hkey : ∫ t in Set.Iic z, (z - t) * normPDF t
      = z * normCDF z + normPDF z := by
    have hsub : ∫ t in Set.Iic z, (z - t) * normPDF t
        = (∫ t in Set.Iic z, z * normPDF t)
          - ∫ t in Set.Iic z, t * normPDF t := by
      rw [← MeasureTheory.integral_sub h1 h2]
      congr 1
      funext t
      ring
    rw [hsub, MeasureTheory.integral_mul_left, integral_mul_normPDF_Iic]
    rw [normCDF]
    ring
  have hpos : 0 ≤ ∫ t in Set.Iic z, (z - t) * normPDF t :=
    MeasureTheory.setIntegral_nonneg measurableSet_Iic
      (fun t ht => mul_nonneg (by simpa using sub_nonneg.2 (Set.mem_Iic.1 ht))
        (normPDF_nonneg t))
  linarith [hkey ▸ hpos]

/-- C3: the Expected Improvement acquisition score is never negative: for
every candidate (any surrogate mean, any std ≥ 0, any best-so-far),
EI ≥ 0. -/
theorem EI_nonneg (best mean std : ℝ) (h : 0 ≤ std) :
    0 ≤ EI best mean std := by
  rcases eq_or_lt_of_le h with heq | hpos
  · simp [EI, ← heq]
  · have hne : std ≠ 0 := ne_of_gt hpos
    rw [EI, if_neg hne]
    have hbm : best - mean = (best - mean) / std * std := by
      field_simp
    rw [hbm]
    have hm := mills_nonneg ((best - mean) / std)
    calc (0:ℝ)
        ≤ std * ((best - mean) / std * normCDF ((best - mean) / std)
            + normPDF ((best - mean) / std)) := mul_nonneg hpos.le hm
      _ = (best - mean) / std * std * normCDF ((best - mean) / std * std / std)
            + std * normPDF ((best - mean) / std * std / std) := by
          rw [mul_div_cancel_right₀ _ hne]
          ring

/-- Witness for C3 at best = 0, mean = 0, std = 1. -/
theorem EI_nonneg_witness : (0:ℝ) ≤ 1 ∧ (0:ℝ) ≤ EI 0 0 1 :=
  ⟨by norm_num, EI_nonneg 0 0 1 (by norm_num)⟩

/-- C4: zero predictive uncertainty yields zero expected improvement:
EI = 0 whenever std = 0, whatever the mean and the current best. -/
theorem EI_std_zero (best mean : ℝ) : EI best mean 0 = 0 := by
  simp [EI]
